import Mathlib

/-!
Verification development for the gotmuch sync core.

The Go sources are shallowly embedded: Go strings are modelled by Lean
`String` (and, where the code operates on raw bytes, by `List Nat` of
UTF-8 byte values), `uint64` by `Nat` with explicit `% 2^64`, `int64`
by `Int` constrained to `[-2^63, 2^63)`, SQLite tables by association
lists, and the filesystem by an association list from paths to byte
contents.  Fallible operations return an `Option`al error paired with
the post-state, mirroring Go's `(error, side effects)` shape.
-/

set_option maxRecDepth 4096

namespace Gotmuch

/-- UTF-8 encoding of a single character, as byte values.  Go strings
are UTF-8 byte sequences; `escape` and `fnv.New32a` in
`internal/notmuch/notmuch.go` operate on these bytes. -/
def utf8Bytes (c : Char) : List Nat :=
  let x := c.toNat
  if x < 0x80 then [x]
  else if x < 0x800 then [0xC0 + x / 0x40, 0x80 + x % 0x40]
  else if x < 0x10000 then
    [0xE0 + x / 0x1000, 0x80 + (x / 0x40) % 0x40, 0x80 + x % 0x40]
  else
    [0xF0 + x / 0x40000, 0x80 + (x / 0x1000) % 0x40,
     0x80 + (x / 0x40) % 0x40, 0x80 + x % 0x40]

/-- The bytes of a Go string (UTF-8). -/
def goBytes (s : String) : List Nat := s.data.flatMap utf8Bytes

example : goBytes "ab" = [97, 98] := by decide

/-!
### Cursor bias encoding (`internal/persist/persist.go`)

`orderedToSigned(u)` is Go `int64(u - -math.MinInt64)`: the `uint64`
subtraction `u - 2^63` wraps modulo `2^64` and the result is then
reinterpreted as a signed 64-bit value.  `orderedToUnsigned(s)` is Go
`uint64(s) + -math.MinInt64`.
-/

/-- Reinterpretation of a `uint64` bit pattern (a `Nat < 2^64`) as an
`int64` value. -/
def int64OfUint64 (x : Nat) : Int :=
  if x < 2 ^ 63 then (x : Int) else (x : Int) - 2 ^ 64

/-- Reinterpretation of an `int64` value as a `uint64` bit pattern. -/
def uint64OfInt64 (s : Int) : Nat := ((s + 2 ^ 64) % 2 ^ 64).toNat

/-- `orderedToSigned` from `persist.go`: `int64(u - -math.MinInt64)`.
The `uint64` subtraction `u - 2^63` is `(u + 2^63) % 2^64`. -/
def orderedToSigned (u : Nat) : Int :=
  int64OfUint64 ((u + 2 ^ 63) % 2 ^ 64)

/-- `orderedToUnsigned` from `persist.go`: `uint64(s) + -math.MinInt64`,
with the `uint64` addition wrapping modulo `2^64`. -/
def orderedToUnsigned (s : Int) : Nat :=
  (uint64OfInt64 s + 2 ^ 63) % 2 ^ 64

theorem orderedToSigned_eq_bias {u : Nat} (hu : u < 2 ^ 64) :
    orderedToSigned u = (u : Int) - 2 ^ 63 := by
  unfold orderedToSigned int64OfUint64
  rcases Nat.lt_or_ge u (2 ^ 63) with h | h
  · have : (u + 2 ^ 63) % 2 ^ 64 = u + 2 ^ 63 := Nat.mod_eq_of_lt (by omega)
    rw [this]
    have : ¬ (u + 2 ^ 63 < 2 ^ 63) := by omega
    rw [if_neg this]
    push_cast
    omega
  · have : (u + 2 ^ 63) % 2 ^ 64 = u - 2 ^ 63 := by omega
    rw [this]
    have h' : u - 2 ^ 63 < 2 ^ 63 := by omega
    rw [if_pos h']
    omega

theorem orderedToSigned_lb {u : Nat} (hu : u < 2 ^ 64) :
    -(2 ^ 63) ≤ orderedToSigned u := by
  rw [orderedToSigned_eq_bias hu]; omega

theorem orderedToSigned_ub {u : Nat} (hu : u < 2 ^ 64) :
    orderedToSigned u < 2 ^ 63 := by
  rw [orderedToSigned_eq_bias hu]; omega

theorem orderedToUnsigned_eq_bias {s : Int} (h1 : -(2 ^ 63) ≤ s)
    (h2 : s < 2 ^ 63) : (orderedToUnsigned s : Int) = s + 2 ^ 63 := by
  unfold orderedToUnsigned uint64OfInt64
  rcases Int.lt_or_le s 0 with h | h
  · have : (s + 2 ^ 64) % 2 ^ 64 = s + 2 ^ 64 := by omega
    rw [this]
    omega
  · have : (s + 2 ^ 64) % 2 ^ 64 = s := by omega
    rw [this]
    omega

theorem orderedToUnsigned_lt {s : Int} (h1 : -(2 ^ 63) ≤ s)
    (h2 : s < 2 ^ 63) : orderedToUnsigned s < 2 ^ 64 := by
  have := orderedToUnsigned_eq_bias h1 h2
  omega

theorem orderedToUnsigned_orderedToSigned {u : Nat} (hu : u < 2 ^ 64) :
    orderedToUnsigned (orderedToSigned u) = u := by
  have hb := orderedToSigned_eq_bias hu
  have h1 : -(2 ^ 63) ≤ orderedToSigned u := by omega
  have h2 : orderedToSigned u < 2 ^ 63 := by omega
  have := orderedToUnsigned_eq_bias h1 h2
  omega

theorem orderedToSigned_orderedToUnsigned {s : Int} (h1 : -(2 ^ 63) ≤ s)
    (h2 : s < 2 ^ 63) : orderedToSigned (orderedToUnsigned s) = s := by
  have hu := orderedToUnsigned_lt h1 h2
  have hb := orderedToSigned_eq_bias hu
  have := orderedToUnsigned_eq_bias h1 h2
  omega

theorem orderedToSigned_lt_iff {u1 u2 : Nat} (h1 : u1 < 2 ^ 64)
    (h2 : u2 < 2 ^ 64) :
    u1 < u2 ↔ orderedToSigned u1 < orderedToSigned u2 := by
  rw [orderedToSigned_eq_bias h1, orderedToSigned_eq_bias h2]
  omega

/-!
### Common data objects (`internal/message/message.go`)
-/

/-- `message.ID`: the properties that uniquely identify a message. -/
structure MessageID where
  PermID : String
  ThreadID : String
  deriving DecidableEq, Repr

/-- `message.Header`: the metadata associated with a message. -/
structure Header where
  ID : MessageID
  LabelIDs : List String
  SizeEstimate : Int
  HistoryID : Nat
  deriving DecidableEq, Repr

/-- `message.Body`: a complete message, including the raw RFC 2822
text. -/
structure Body where
  Header : Header
  Raw : String
  deriving DecidableEq, Repr

/-!
### Metadata store (`internal/persist/persist.go`)

The schema (`createTableSql`):

  gmail_messages(message_id TEXT NOT NULL PRIMARY KEY,
                 thread_id TEXT NOT NULL,
                 history_id INTEGER, size_estimate INTEGER)
  gmail_message_labels(message_id TEXT NOT NULL, label_id TEXT NOT NULL,
                 PRIMARY KEY (message_id, label_id))
  gmail_history_id(history_id INTEGER NOT NULL, PRIMARY KEY (history_id))

A `gmail_messages` row is keyed by `message_id` alone; the tables have
no account column.  `gmail_messages` is modelled as an association
list keyed by the primary key (primary-key uniqueness is the `Nodup`
well-formedness predicate below), `gmail_message_labels` as a list of
pairs, and `gmail_history_id` as the list of stored (signed, bias
encoded) `INTEGER` values.
-/

/-- The column names of the `gmail_messages` table, from
`createTableSql`. -/
def gmailMessagesColumns : List String :=
  ["message_id", "thread_id", "history_id", "size_estimate"]

/-- The primary-key columns of the `gmail_messages` table, from
`createTableSql`: `message_id TEXT NOT NULL PRIMARY KEY`. -/
def gmailMessagesPrimaryKey : List String := ["message_id"]

/-- One `gmail_messages` row minus its key: `thread_id`, nullable
`history_id`, nullable `size_estimate`. -/
structure MessageRow where
  thread_id : String
  history_id : Option Nat
  size_estimate : Option Int
  deriving DecidableEq, Repr

/-- The transactional state of the metadata store. -/
structure PersistState where
  /-- `gmail_messages`, keyed by `message_id`. -/
  messages : List (String × MessageRow)
  /-- `gmail_message_labels` rows `(message_id, label_id)`. -/
  message_labels : List (String × String)
  /-- `gmail_history_id` rows: the stored signed `INTEGER` values. -/
  history : List Int
  deriving DecidableEq, Repr

def emptyPersist : PersistState := ⟨[], [], []⟩

/-- SQL `UPDATE`-in-place / upsert on an association list: replaces
the value at `k` if present (keeping the row's position), appends a
new row otherwise. -/
def setRow : List (String × MessageRow) → String → MessageRow →
    List (String × MessageRow)
  | [], k, r => [(k, r)]
  | (k', r') :: t, k, r =>
    if k' = k then (k, r) :: t else (k', r') :: setRow t k r

/-- Row lookup by primary key. -/
def getRow : List (String × MessageRow) → String → Option MessageRow
  | [], _ => none
  | (k', r') :: t, k => if k' = k then some r' else getRow t k

/-- `Tx.InsertMessageID`:

  INSERT OR REPLACE INTO gmail_messages (message_id, thread_id)
    values ($1, $2)
  ON CONFLICT (message_id) DO UPDATE SET (thread_id, history_id) = ($2, NULL);
  DELETE FROM gmail_message_labels WHERE message_id = $1;

A fresh row gets `history_id = NULL` and `size_estimate = NULL`; on
conflict `thread_id` is replaced and `history_id` set `NULL` while
`size_estimate` is kept. -/
def InsertMessageID (db : PersistState) (msg : MessageID) : PersistState :=
  let row : MessageRow :=
    match getRow db.messages msg.PermID with
    | none => ⟨msg.ThreadID, none, none⟩
    | some r => ⟨msg.ThreadID, none, r.size_estimate⟩
  { db with
    messages := setRow db.messages msg.PermID row
    message_labels := db.message_labels.filter (fun p => p.1 ≠ msg.PermID) }

/-- The per-label loop of `Tx.UpdateHeader`: one

  INSERT INTO gmail_message_labels (message_id, label_id) values ($1, $2)

per element of `hdr.LabelIDs`, in order, starting from the junction
rows left by the preceding `DELETE`.  `gmail_message_labels` has an
enforced `PRIMARY KEY (message_id, label_id)`, so inserting a pair
already in the table fails with a constraint error, which the source
returns (wrapped `"UpdateHeader"`), stopping the loop; rows inserted
before the failure remain. -/
def insertLabels (perm : String) :
    List (String × String) → List String →
    Option String × List (String × String)
  | rows, [] => (none, rows)
  | rows, l :: t =>
    if (perm, l) ∈ rows then
      (some "UpdateHeader: UNIQUE constraint failed", rows)
    else insertLabels perm (rows ++ [(perm, l)]) t

/-- `Tx.UpdateHeader`:

  UPDATE gmail_messages SET (history_id, size_estimate) = ($1, $2)
    WHERE message_id = $3;
  DELETE FROM gmail_message_labels WHERE message_id = $1;
  -- then the per-label insert loop, `insertLabels`

The `UPDATE` touches only an existing row with the given key; if no
row matches it affects zero rows and is not an error.  The returned
`Option String` is the Go `error` result: `nil` unless a junction
insert violates the `(message_id, label_id)` primary key (a
duplicated label id in `hdr.LabelIDs`). -/
def UpdateHeader (db : PersistState) (hdr : Header) :
    Option String × PersistState :=
  ((insertLabels hdr.ID.PermID
      (db.message_labels.filter (fun p => p.1 ≠ hdr.ID.PermID))
      hdr.LabelIDs).1,
   { db with
     messages :=
       match getRow db.messages hdr.ID.PermID with
       | none => db.messages
       | some r => setRow db.messages hdr.ID.PermID
           ⟨r.thread_id, some hdr.HistoryID, some hdr.SizeEstimate⟩
     message_labels :=
       (insertLabels hdr.ID.PermID
         (db.message_labels.filter (fun p => p.1 ≠ hdr.ID.PermID))
         hdr.LabelIDs).2 })

/-- The rows of a `gmail_messages` table with `history_id IS NULL`,
as `message.ID`s (the row scan of the `SELECT`). -/
def updatedRows : List (String × MessageRow) → List MessageID
  | [] => []
  | (k, r) :: t =>
    match r.history_id with
    | none => ⟨k, r.thread_id⟩ :: updatedRows t
    | some _ => updatedRows t

/-- `Tx.ListUpdated`:

  SELECT message_id, thread_id FROM gmail_messages WHERE history_id IS NULL

yielding one `message.ID` per matching row. -/
def ListUpdated (db : PersistState) : List MessageID :=
  updatedRows db.messages

/-- The maximum of the stored `INTEGER` values
(`ORDER BY history_id DESC LIMIT 1`), `none` on an empty table
(`sql.ErrNoRows`). -/
def maxStored : List Int → Option Int
  | [] => none
  | s :: t =>
    some (match maxStored t with
          | none => s
          | some m => max s m)

/-- The decoded maximum of a stored-cursor list, 0 when empty. -/
def latestOf (l : List Int) : Nat :=
  match maxStored l with
  | none => 0
  | some m => orderedToUnsigned m

/-- `Tx.LatestHistoryID`: the decoded maximum stored cursor, or 0 when
the `gmail_history_id` table is empty. -/
def LatestHistoryID (db : PersistState) : Nat := latestOf db.history

/-- `Tx.WriteHistoryID`: fails (leaving the table untouched) when
`history_id <= latest`; otherwise

  INSERT INTO gmail_history_id (history_id) values (orderedToSigned $1)

The `Option String` component is the Go `error` result. -/
def WriteHistoryID (db : PersistState) (history_id : Nat) :
    Option String × PersistState :=
  let latest := LatestHistoryID db
  if history_id ≤ latest then
    (some "attempt to decrease the latest history_id", db)
  else
    (none, { db with history := db.history ++ [orderedToSigned history_id] })

/-- Run a sequence of `WriteHistoryID` calls, returning the final
state and the cursor values of the calls that succeeded, in order. -/
def runWrites : PersistState → List Nat → PersistState × List Nat
  | db, [] => (db, [])
  | db, v :: t =>
    match WriteHistoryID db v with
    | (none, db') =>
      let r := runWrites db' t
      (r.1, v :: r.2)
    | (some _, _) => runWrites db t

/-- Well-formedness of a stored-cursor list: every stored value is in
`int64` range (SQLite `INTEGER` is a signed 64-bit value, and every
value stored by `WriteHistoryID` went through `orderedToSigned`). -/
def WFStored (l : List Int) : Prop :=
  ∀ s ∈ l, -(2 ^ 63) ≤ s ∧ s < 2 ^ 63

instance (l : List Int) : Decidable (WFStored l) := by
  unfold WFStored; infer_instance

/-- Well-formedness of the history table. -/
def WFHistory (db : PersistState) : Prop := WFStored db.history

instance (db : PersistState) : Decidable (WFHistory db) := by
  unfold WFHistory; infer_instance

theorem orderedToSigned_range (u : Nat) :
    -(2 ^ 63) ≤ orderedToSigned u ∧ orderedToSigned u < 2 ^ 63 := by
  unfold orderedToSigned int64OfUint64
  have h : (u + 2 ^ 63) % 2 ^ 64 < 2 ^ 64 := Nat.mod_lt _ (by norm_num)
  rcases Nat.lt_or_ge ((u + 2 ^ 63) % 2 ^ 64) (2 ^ 63) with h' | h'
  · rw [if_pos h']; omega
  · rw [if_neg (by omega)]; omega

theorem maxStored_mem {l : List Int} {m : Int} (h : maxStored l = some m) :
    m ∈ l := by
  induction l generalizing m with
  | nil => simp [maxStored] at h
  | cons s t ih =>
    rcases ht : maxStored t with _ | m'
    · rw [maxStored, ht] at h
      simp at h
      simp [h]
    · rw [maxStored, ht] at h
      simp at h
      rcases max_choice s m' with hc | hc <;> rw [hc] at h
      · simp [← h]
      · exact List.mem_cons_of_mem _ (h ▸ ih ht)

theorem le_maxStored {l : List Int} {x m : Int} (hx : x ∈ l)
    (h : maxStored l = some m) : x ≤ m := by
  induction l generalizing m with
  | nil => simp at hx
  | cons s t ih =>
    rcases ht : maxStored t with _ | m'
    · rw [maxStored, ht] at h
      simp at h
      rcases List.mem_cons.mp hx with hx | hx
      · omega
      · cases t with
        | nil => simp at hx
        | cons a b => rw [maxStored] at ht; simp at ht
    · rw [maxStored, ht] at h
      simp at h
      rcases List.mem_cons.mp hx with hx | hx
      · subst hx
        exact h ▸ le_max_left x m'
      · exact h ▸ ((ih hx ht).trans (le_max_right s m'))

theorem maxStored_append_singleton (l : List Int) (e : Int) :
    maxStored (l ++ [e]) =
      some ((maxStored l).elim e (fun m => max m e)) := by
  induction l with
  | nil => simp [maxStored]
  | cons s t ih =>
    rw [List.cons_append, maxStored, ih, maxStored]
    rcases ht : maxStored t with _ | m'
    · simp
    · simp
      rw [max_assoc]

theorem latestOf_eq_some {l : List Int} {m : Int}
    (h : maxStored l = some m) : latestOf l = orderedToUnsigned m := by
  unfold latestOf
  rw [h]

/-- After a successful cursor insert, the latest cursor is the one
just written. -/
theorem latestOf_append {l : List Int} {v : Nat}
    (hWF : WFStored l) (hv : v < 2 ^ 64) (hgt : latestOf l < v) :
    latestOf (l ++ [orderedToSigned v]) = v := by
  have happ := maxStored_append_singleton l (orderedToSigned v)
  rcases hm : maxStored l with _ | m
  · rw [hm, Option.elim_none] at happ
    rw [latestOf_eq_some happ]
    exact orderedToUnsigned_orderedToSigned hv
  · rw [hm, Option.elim_some] at happ
    have hmem := maxStored_mem hm
    have hrange := hWF m hmem
    have hdec : orderedToSigned (orderedToUnsigned m) = m :=
      orderedToSigned_orderedToUnsigned hrange.1 hrange.2
    have hlt : orderedToUnsigned m < 2 ^ 64 :=
      orderedToUnsigned_lt hrange.1 hrange.2
    rw [latestOf_eq_some hm] at hgt
    have hm_lt : m < orderedToSigned v := by
      have h2 := (orderedToSigned_lt_iff hlt hv).mp hgt
      rw [hdec] at h2
      exact h2
    rw [max_eq_right hm_lt.le] at happ
    rw [latestOf_eq_some happ]
    exact orderedToUnsigned_orderedToSigned hv

theorem WFStored_append {l : List Int} {v : Nat} (hWF : WFStored l) :
    WFStored (l ++ [orderedToSigned v]) := by
  intro s hs
  rcases List.mem_append.mp hs with hs | hs
  · exact hWF s hs
  · rw [List.mem_singleton] at hs
    exact hs ▸ orderedToSigned_range v

theorem WriteHistoryID_fail {db : PersistState} {h : Nat}
    (hle : h ≤ LatestHistoryID db) :
    WriteHistoryID db h =
      (some "attempt to decrease the latest history_id", db) := by
  unfold WriteHistoryID
  rw [if_pos hle]

theorem WriteHistoryID_success {db : PersistState} {h : Nat}
    (hgt : LatestHistoryID db < h) :
    WriteHistoryID db h =
      (none, { db with history := db.history ++ [orderedToSigned h] }) := by
  unfold WriteHistoryID
  rw [if_neg (by omega)]

theorem runWrites_cons_fail {db : PersistState} {v : Nat} {e : String}
    (hW : WriteHistoryID db v = (some e, db)) (t : List Nat) :
    runWrites db (v :: t) = runWrites db t := by
  rw [runWrites, hW]

theorem runWrites_cons_ok {db db' : PersistState} {v : Nat}
    (hW : WriteHistoryID db v = (none, db')) (t : List Nat) :
    runWrites db (v :: t) =
      ((runWrites db' t).1, v :: (runWrites db' t).2) := by
  rw [runWrites, hW]

/-- Successful `WriteHistoryID` values are strictly increasing and
strictly above the starting cursor. -/
theorem runWrites_chain (vs : List Nat) :
    ∀ db : PersistState, WFHistory db → (∀ v ∈ vs, v < 2 ^ 64) →
    List.Chain' (· < ·) (runWrites db vs).2 ∧
      ∀ w ∈ (runWrites db vs).2, LatestHistoryID db < w := by
  induction vs with
  | nil =>
    intro db _ _
    rw [runWrites]
    constructor
    · exact List.chain'_nil
    · intro w hw
      simp at hw
  | cons v t ih =>
    intro db hWF hvs
    have hv : v < 2 ^ 64 := hvs v (List.mem_cons_self v t)
    have hvs' : ∀ x ∈ t, x < 2 ^ 64 := fun x hx =>
      hvs x (List.mem_cons_of_mem _ hx)
    by_cases hle : v ≤ LatestHistoryID db
    · rw [runWrites_cons_fail (WriteHistoryID_fail hle) t]
      exact ih db hWF hvs'
    · have hgt : LatestHistoryID db < v := by omega
      have hW := WriteHistoryID_success hgt
      rw [runWrites_cons_ok hW t]
      set db' : PersistState :=
        { db with history := db.history ++ [orderedToSigned v] } with hdb'
      have hWF' : WFHistory db' := by
        unfold WFHistory
        show WFStored (db.history ++ [orderedToSigned v])
        exact WFStored_append hWF
      have hL' : LatestHistoryID db' = v := by
        unfold LatestHistoryID
        show latestOf (db.history ++ [orderedToSigned v]) = v
        exact latestOf_append hWF hv hgt
      obtain ⟨hchain, habove⟩ := ih db' hWF' hvs'
      rw [hL'] at habove
      constructor
      · rw [List.chain'_cons']
        refine ⟨fun b hb => ?_, hchain⟩
        exact habove b (List.mem_of_mem_head? hb)
      · intro w hw
        rcases List.mem_cons.mp hw with hw | hw
        · omega
        · have := habove w hw
          omega

/-!
### Association-list lemmas for the `gmail_messages` table
-/

theorem getRow_setRow_self (l : List (String × MessageRow)) (k : String)
    (r : MessageRow) : getRow (setRow l k r) k = some r := by
  induction l with
  | nil => simp [setRow, getRow]
  | cons p t ih =>
    rw [setRow]
    by_cases hk : p.1 = k
    · rw [if_pos hk, getRow, if_pos rfl]
    · rw [if_neg hk, getRow, if_neg hk]
      exact ih

theorem getRow_setRow_ne (l : List (String × MessageRow)) {k k' : String}
    (r : MessageRow) (hne : k' ≠ k) :
    getRow (setRow l k r) k' = getRow l k' := by
  induction l with
  | nil =>
    simp only [setRow, getRow]
    rw [if_neg (fun h : k = k' => hne h.symm)]
  | cons p t ih =>
    rw [setRow]
    by_cases hk : p.1 = k
    · rw [if_pos hk]
      simp only [getRow]
      rw [if_neg (fun h : k = k' => hne h.symm),
        if_neg (fun h : p.1 = k' => hne (h ▸ hk))]
    · rw [if_neg hk]
      simp only [getRow]
      by_cases hk' : p.1 = k'
      · rw [if_pos hk', if_pos hk']
      · rw [if_neg hk', if_neg hk']
        exact ih

theorem getRow_eq_none_iff (l : List (String × MessageRow)) (k : String) :
    getRow l k = none ↔ k ∉ l.map Prod.fst := by
  induction l with
  | nil => simp [getRow]
  | cons p t ih =>
    rw [getRow]
    by_cases hk : p.1 = k
    · rw [if_pos hk]
      simp [hk]
    · rw [if_neg hk]
      simp only [List.map_cons, List.mem_cons]
      rw [ih]
      constructor
      · intro h hc
        rcases hc with hc | hc
        · exact hk hc.symm
        · exact h hc
      · intro h hc
        exact h (Or.inr hc)

theorem keys_setRow_present (l : List (String × MessageRow)) {k : String}
    (r : MessageRow) (hp : getRow l k ≠ none) :
    (setRow l k r).map Prod.fst = l.map Prod.fst := by
  induction l with
  | nil => simp [getRow] at hp
  | cons p t ih =>
    rw [setRow]
    by_cases hk : p.1 = k
    · rw [if_pos hk]
      simp [hk]
    · rw [if_neg hk]
      rw [getRow, if_neg hk] at hp
      simp only [List.map_cons]
      rw [ih hp]

theorem keys_setRow_absent (l : List (String × MessageRow)) {k : String}
    (r : MessageRow) (hp : getRow l k = none) :
    (setRow l k r).map Prod.fst = l.map Prod.fst ++ [k] := by
  induction l with
  | nil => simp [setRow]
  | cons p t ih =>
    rw [getRow] at hp
    by_cases hk : p.1 = k
    · rw [if_pos hk] at hp
      simp at hp
    · rw [if_neg hk] at hp
      rw [setRow, if_neg hk]
      simp only [List.map_cons, List.cons_append]
      rw [ih hp]

theorem nodup_keys_setRow (l : List (String × MessageRow)) (k : String)
    (r : MessageRow) (h : (l.map Prod.fst).Nodup) :
    ((setRow l k r).map Prod.fst).Nodup := by
  rcases hp : getRow l k with _ | r0
  · rw [keys_setRow_absent l r hp]
    rw [List.nodup_append]
    refine ⟨h, List.nodup_singleton k, ?_⟩
    intro a ha hb
    rw [List.mem_singleton] at hb
    subst hb
    exact (getRow_eq_none_iff l a).mp hp ha
  · rw [keys_setRow_present l r (by rw [hp]; exact fun h => by cases h)]
    exact h

/-- How often a perm id occurs in a result list. -/
def permCount (ms : List MessageID) (p : String) : Nat :=
  ms.countP (fun m => m.PermID == p)

/-- What the `history_id IS NULL` scan contributes for one key, read
off the row found for that key. -/
def rowCount (l : List (String × MessageRow)) (p : String) : Nat :=
  match getRow l p with
  | some r => if r.history_id = none then 1 else 0
  | none => 0

theorem rowCount_eq_none {l : List (String × MessageRow)} {p : String}
    (h : getRow l p = none) : rowCount l p = 0 := by
  unfold rowCount
  rw [h]

theorem rowCount_eq_some {l : List (String × MessageRow)} {p : String}
    {r : MessageRow} (h : getRow l p = some r) :
    rowCount l p = if r.history_id = none then 1 else 0 := by
  unfold rowCount
  rw [h]

/-- With unique primary keys, each perm id occurs in the
`history_id IS NULL` scan exactly as often as its (unique) row
qualifies: once when flagged, zero times otherwise. -/
theorem permCount_updatedRows (l : List (String × MessageRow)) (p : String)
    (hnd : (l.map Prod.fst).Nodup) :
    permCount (updatedRows l) p = rowCount l p := by
  induction l with
  | nil => rfl
  | cons q t ih =>
    obtain ⟨k, r⟩ := q
    simp only [List.map_cons, List.nodup_cons] at hnd
    obtain ⟨hq, hnd'⟩ := hnd
    have iht := ih hnd'
    have hget : getRow ((k, r) :: t) p =
        if k = p then some r else getRow t p := by
      rw [getRow]
    rcases hh : r.history_id with _ | hid
    · have hcons : updatedRows ((k, r) :: t) =
          ⟨k, r.thread_id⟩ :: updatedRows t := by
        rw [updatedRows, hh]
      rw [hcons, permCount, List.countP_cons]
      by_cases hk : k = p
      · subst hk
        have ht0 : getRow t k = none := (getRow_eq_none_iff t k).mpr hq
        have hzero : permCount (updatedRows t) k = 0 := by
          rw [iht, rowCount_eq_none ht0]
        rw [permCount] at hzero
        rw [hzero]
        have hr : rowCount ((k, r) :: t) k = 1 := by
          rw [rowCount_eq_some (by rw [hget, if_pos rfl]), if_pos hh]
        rw [hr]
        simp
      · have hr : rowCount ((k, r) :: t) p = rowCount t p := by
          unfold rowCount
          rw [hget, if_neg hk]
        rw [hr, ← iht, permCount]
        have hpred : ((⟨k, r.thread_id⟩ : MessageID).PermID == p) = false :=
          beq_eq_false_iff_ne.mpr hk
        rw [hpred]
        simp
    · have hcons : updatedRows ((k, r) :: t) = updatedRows t := by
        rw [updatedRows, hh]
      rw [hcons, iht]
      by_cases hk : k = p
      · subst hk
        have ht0 : getRow t k = none := (getRow_eq_none_iff t k).mpr hq
        rw [rowCount_eq_none ht0]
        have hr : rowCount ((k, r) :: t) k = 0 := by
          rw [rowCount_eq_some (by rw [hget, if_pos rfl]), hh]
          simp
        rw [hr]
      · have hr : rowCount ((k, r) :: t) p = rowCount t p := by
          unfold rowCount
          rw [hget, if_neg hk]
        rw [hr]

/-- Primary-key uniqueness of the `gmail_messages` table. -/
def WFMessages (db : PersistState) : Prop :=
  (db.messages.map Prod.fst).Nodup

instance (db : PersistState) : Decidable (WFMessages db) := by
  unfold WFMessages; infer_instance

/-- The row stored by `InsertMessageID`. -/
def insertedRow (db : PersistState) (msg : MessageID) : MessageRow :=
  match getRow db.messages msg.PermID with
  | none => ⟨msg.ThreadID, none, none⟩
  | some r => ⟨msg.ThreadID, none, r.size_estimate⟩

theorem InsertMessageID_messages (db : PersistState) (msg : MessageID) :
    (InsertMessageID db msg).messages =
      setRow db.messages msg.PermID (insertedRow db msg) := rfl

theorem insertedRow_history (db : PersistState) (msg : MessageID) :
    (insertedRow db msg).history_id = none := by
  unfold insertedRow
  rcases getRow db.messages msg.PermID with _ | r <;> rfl

theorem insertedRow_thread (db : PersistState) (msg : MessageID) :
    (insertedRow db msg).thread_id = msg.ThreadID := by
  unfold insertedRow
  rcases getRow db.messages msg.PermID with _ | r <;> rfl

theorem getRow_InsertMessageID_self (db : PersistState) (msg : MessageID) :
    getRow (InsertMessageID db msg).messages msg.PermID =
      some (insertedRow db msg) := by
  rw [InsertMessageID_messages]
  exact getRow_setRow_self _ _ _

theorem getRow_InsertMessageID_ne (db : PersistState) (msg : MessageID)
    {k : String} (hne : k ≠ msg.PermID) :
    getRow (InsertMessageID db msg).messages k = getRow db.messages k := by
  rw [InsertMessageID_messages]
  exact getRow_setRow_ne _ _ hne

theorem WFMessages_InsertMessageID {db : PersistState} (msg : MessageID)
    (h : WFMessages db) : WFMessages (InsertMessageID db msg) := by
  unfold WFMessages
  rw [InsertMessageID_messages]
  exact nodup_keys_setRow _ _ _ h

theorem UpdateHeader_err (db : PersistState) (hdr : Header) :
    (UpdateHeader db hdr).1 =
      (insertLabels hdr.ID.PermID
        (db.message_labels.filter (fun p => p.1 ≠ hdr.ID.PermID))
        hdr.LabelIDs).1 := rfl

/-- The junction insert loop succeeds when the labels are
duplicate-free and none of their pairs is already present. -/
theorem insertLabels_ok {perm : String} : ∀ (ls : List String)
    (rows : List (String × String)), ls.Nodup →
    (∀ l ∈ ls, (perm, l) ∉ rows) →
    (insertLabels perm rows ls).1 = none := by
  intro ls
  induction ls with
  | nil =>
    intro rows _ _
    rfl
  | cons l t ih =>
    intro rows hnd hmem
    rw [insertLabels, if_neg (hmem l (List.mem_cons_self l t))]
    rw [List.nodup_cons] at hnd
    refine ih _ hnd.2 ?_
    intro l' hl' hc
    rcases List.mem_append.mp hc with hc | hc
    · exact hmem l' (List.mem_cons_of_mem _ hl') hc
    · rw [List.mem_singleton] at hc
      injection hc with h1 h2
      exact hnd.1 (h2 ▸ hl')

/-- After the `DELETE FROM gmail_message_labels WHERE message_id = $1`,
no junction row for that perm id remains. -/
theorem mem_filter_ne_perm {rows : List (String × String)}
    {perm l : String}
    (h : (perm, l) ∈ rows.filter (fun p => p.1 ≠ perm)) : False := by
  rw [List.mem_filter] at h
  simp at h

theorem UpdateHeader_messages_absent {db : PersistState} {hdr : Header}
    (h : getRow db.messages hdr.ID.PermID = none) :
    (UpdateHeader db hdr).2.messages = db.messages := by
  unfold UpdateHeader
  rw [h]

theorem UpdateHeader_messages_present {db : PersistState} {hdr : Header}
    {r : MessageRow} (h : getRow db.messages hdr.ID.PermID = some r) :
    (UpdateHeader db hdr).2.messages =
      setRow db.messages hdr.ID.PermID
        ⟨r.thread_id, some hdr.HistoryID, some hdr.SizeEstimate⟩ := by
  unfold UpdateHeader
  rw [h]

theorem getRow_UpdateHeader_ne (db : PersistState) (hdr : Header)
    {k : String} (hne : k ≠ hdr.ID.PermID) :
    getRow (UpdateHeader db hdr).2.messages k = getRow db.messages k := by
  rcases h : getRow db.messages hdr.ID.PermID with _ | r
  · rw [UpdateHeader_messages_absent h]
  · rw [UpdateHeader_messages_present h]
    exact getRow_setRow_ne _ _ hne

theorem WFMessages_UpdateHeader {db : PersistState} (hdr : Header)
    (h : WFMessages db) : WFMessages (UpdateHeader db hdr).2 := by
  unfold WFMessages
  rcases hg : getRow db.messages hdr.ID.PermID with _ | r
  · rw [UpdateHeader_messages_absent hg]
    exact h
  · rw [UpdateHeader_messages_present hg]
    exact nodup_keys_setRow _ _ _ h

/-!
### Blob store (`internal/notmuch/notmuch.go`)
-/

/-- `pathFarm16 = "abcdefghijklmnop"`. -/
def pathFarm16 : String := "abcdefghijklmnop"

/-- `shouldEscape`: true for every byte outside `[A-Za-z0-9]`. -/
def shouldEscape (c : Nat) : Bool :=
  !((65 ≤ c && c ≤ 90) || (97 ≤ c && c ≤ 122) || (48 ≤ c && c ≤ 57))

/-- The bytes of the hex digit table `"0123456789ABCDEF"`. -/
def hexDigitBytes : List Nat := goBytes "0123456789ABCDEF"

/-- The three bytes `'=', hex[c>>4], hex[c&15]` written for an escaped
byte. -/
def escapeByte (c : Nat) : List Nat :=
  [61, hexDigitBytes.getD (c / 16) 0, hexDigitBytes.getD (c % 16) 0]

/-- The copying loop of `escape`: `=HH` for bytes needing escape, the
byte itself otherwise. -/
def escapeLoop : List Nat → List Nat
  | [] => []
  | c :: t => (if shouldEscape c then escapeByte c else [c]) ++ escapeLoop t

/-- `escape`: first pass counts the bytes needing escape and returns
the input unchanged when there are none; otherwise the copying loop
builds the escaped string. -/
def escape (s : List Nat) : List Nat :=
  if s.countP shouldEscape = 0 then s else escapeLoop s

theorem escapeLoop_eq_self {s : List Nat}
    (h : ∀ c ∈ s, shouldEscape c = false) : escapeLoop s = s := by
  induction s with
  | nil => rfl
  | cons c t ih =>
    rw [escapeLoop, h c (List.mem_cons_self c t)]
    rw [ih fun x hx => h x (List.mem_cons_of_mem _ hx)]
    rfl

/-- The two-pass `escape` produces exactly what the copying loop
produces. -/
theorem escape_eq_escapeLoop (s : List Nat) : escape s = escapeLoop s := by
  unfold escape
  by_cases h : s.countP shouldEscape = 0
  · rw [if_pos h]
    have hall := List.countP_eq_zero.mp h
    exact (escapeLoop_eq_self fun c hc => by
      have := hall c hc
      simpa using this).symm
  · rw [if_neg h]

/-- `escape` byte by byte: every byte needing escape becomes `=HH`,
every other byte is copied. -/
theorem escape_eq_flatMap (s : List Nat) :
    escape s = s.flatMap fun c =>
      if shouldEscape c then escapeByte c else [c] := by
  rw [escape_eq_escapeLoop]
  induction s with
  | nil => rfl
  | cons c t ih =>
    rw [escapeLoop, List.flatMap_cons, ih]

/-- `basename.encode`:
`"gotmuch-1-" + escape(scope) + "-" + escape(permID)` (45 is `'-'`). -/
def basenameEncode (scope permID : List Nat) : List Nat :=
  goBytes "gotmuch-1-" ++ escape scope ++ [45] ++ escape permID

/-- `fingerprint`: FNV-1a, 32 bits (`fnv.New32a`), over the bytes:
`h := 2166136261; for each byte: h = (h XOR c) * 16777619 mod 2^32`. -/
def fnv1a32 (bs : List Nat) : Nat :=
  bs.foldl (fun h c => ((h ^^^ c) * 16777619) % 2 ^ 32) 2166136261

/-- `pathParts`: the two one-byte shard directory names,
`pathFarm16[fp & 0xf]` then `pathFarm16[(fp >> 4) & 0xf]`. -/
def pathParts (id : List Nat) : List (List Nat) :=
  [[(goBytes pathFarm16).getD (fnv1a32 id % 16) 0],
   [(goBytes pathFarm16).getD (fnv1a32 id / 16 % 16) 0]]

/-- The `path` struct of `notmuch.go`: root directory, shard
directories, basename. -/
structure GoPath where
  root : List Nat
  dirs : List (List Nat)
  base : List Nat
  deriving DecidableEq, Repr

/-- `Service.makePath`.  The source hardcodes the scope `"xxx"`
(`TODO: use a real "scope" here`). -/
def makePath (svcPath : List Nat) (id : List Nat) : GoPath :=
  ⟨svcPath, pathParts id, basenameEncode (goBytes "xxx") id⟩

/-- The filesystem: file contents by path. -/
def FS : Type := List (GoPath × List Nat)

instance : DecidableEq FS := by
  unfold FS; infer_instance

def emptyFS : FS := []

def fsGet : FS → GoPath → Option (List Nat)
  | [], _ => none
  | (q, c) :: t, p => if q = p then some c else fsGet t p

/-- `ioutil.WriteFile`: creates the file or truncates an existing
one. -/
def fsSet : FS → GoPath → List Nat → FS
  | [], p, c => [(p, c)]
  | (q, c') :: t, p, c =>
    if q = p then (p, c) :: t else (q, c') :: fsSet t p c

/-- `Service.HaveMessage`: `os.Stat` succeeds on the computed path. -/
def HaveMessage (svcPath : List Nat) (fs : FS) (id : String) : Bool :=
  (fsGet fs (makePath svcPath (goBytes id))).isSome

/-- Left-to-right, non-overlapping replacement of CRLF (13 10) by LF
(10): the specification of `strings.ReplaceAll(s, "\r\n", "\n")`. -/
def replaceCRLF : List Nat → List Nat
  | [] => []
  | [c] => [c]
  | c1 :: c2 :: t =>
    if c1 = 13 ∧ c2 = 10 then 10 :: replaceCRLF t
    else c1 :: replaceCRLF (c2 :: t)

/-- Go `strings.ReplaceAll(s, pat, rep)` for a non-empty pattern:
scan left to right; at each position, if the pattern matches, emit
the replacement and continue after the match, otherwise copy one
byte.  `fuel` bounds the scan; `s.length` suffices. -/
def goReplaceAll (pat rep : List Nat) : Nat → List Nat → List Nat
  | _, [] => []
  | 0, s => s
  | fuel + 1, c :: t =>
    if pat.isPrefixOf (c :: t) then
      rep ++ goReplaceAll pat rep fuel ((c :: t).drop pat.length)
    else
      c :: goReplaceAll pat rep fuel t

/-- `strings.ReplaceAll(msg.Raw, "\r\n", "\n")` on the raw bytes. -/
def foldCRLF (s : List Nat) : List Nat :=
  goReplaceAll (goBytes "\r\n") (goBytes "\n") s.length s

theorem goReplaceAll_crlf : ∀ (fuel : Nat) (s : List Nat),
    s.length ≤ fuel →
    goReplaceAll [13, 10] [10] fuel s = replaceCRLF s := by
  intro fuel
  induction fuel with
  | zero =>
    intro s hs
    cases s with
    | nil => rfl
    | cons c t => simp at hs
  | succ fuel ih =>
    intro s hs
    cases s with
    | nil => rfl
    | cons c1 t1 =>
      cases t1 with
      | nil =>
        have hp : [13, 10].isPrefixOf [c1] = false := by
          simp [List.isPrefixOf]
        rw [goReplaceAll, hp]
        cases fuel with
        | zero => rfl
        | succ f => rfl
      | cons c2 t2 =>
        by_cases hp : ([13, 10].isPrefixOf (c1 :: c2 :: t2)) = true
        · have hpc : c1 = 13 ∧ c2 = 10 := by
            simp only [List.isPrefixOf, Bool.and_eq_true, beq_iff_eq] at hp
            exact ⟨hp.1.symm, hp.2.1.symm⟩
          rw [goReplaceAll, hp]
          rw [if_pos rfl]
          rw [replaceCRLF, if_pos hpc]
          have hdrop : List.drop [13, 10].length (c1 :: c2 :: t2) = t2 := rfl
          rw [hdrop]
          have hlen : t2.length ≤ fuel := by
            simp at hs
            omega
          rw [ih t2 hlen]
          rfl
        · rw [goReplaceAll]
          rw [Bool.not_eq_true] at hp
          rw [hp, if_neg (by simp)]
          have hne : ¬ (c1 = 13 ∧ c2 = 10) := by
            intro hc
            rw [hc.1, hc.2] at hp
            simp [List.isPrefixOf] at hp
          rw [replaceCRLF, if_neg hne]
          have hlen : (c2 :: t2).length ≤ fuel := by
            simp at hs ⊢
            omega
          rw [ih (c2 :: t2) hlen]

/-- `foldCRLF` is `replaceCRLF`. -/
theorem foldCRLF_eq (s : List Nat) : foldCRLF s = replaceCRLF s := by
  unfold foldCRLF
  have h1 : goBytes "\r\n" = [13, 10] := by decide
  have h2 : goBytes "\n" = [10] := by decide
  rw [h1, h2]
  exact goReplaceAll_crlf s.length s le_rfl

/-- `Service.Insert`: rejects an empty perm id or empty raw content
(returning before touching the filesystem); otherwise writes the
CRLF-folded body to the deterministic path. -/
def Insert (svcPath : List Nat) (fs : FS) (msg : Body) :
    Option String × FS :=
  if msg.Header.ID.PermID = "" then (some "message has no ID", fs)
  else if msg.Raw = "" then (some "message has no content", fs)
  else
    (none,
     fsSet fs (makePath svcPath (goBytes msg.Header.ID.PermID))
       (foldCRLF (goBytes msg.Raw)))

/-!
### Sync engine, phase 2 (`internal/sync/sync.go`)

`pullDownload` lists the refresh-flagged rows inside one transaction
and hands each id to `handleOutdatedMessage`
(`const concurrency = 1`: a single sequential worker).
-/

/-- The root cause (`errors.Cause`) of an error reaching
`handleOutdatedMessage`.  `GetMessageFull` in `internal/gmail`
canonicalizes HTTP 404 responses whose reason is `"notFound"` (and
chat messages) into `gmail.ErrMessageNotFound` before wrapping;
other `*googleapi.Error` values keep their HTTP code. -/
inductive GoCause where
  /-- an uncanonicalized `*googleapi.Error` with its HTTP code -/
  | googleApi (code : Nat)
  /-- `gmail.ErrMessageNotFound` -/
  | messageNotFound
  /-- any other error, e.g. a failed blob store write -/
  | ioErr (msg : String)
  deriving DecidableEq, Repr

/-- The MailStore as phase 2 sees it: the outcome of
`GetMessageFull` per perm id (errors given by their root cause). -/
structure SyncEnv where
  getMessageFull : String → Except GoCause Body

/-- MailStore calls issued while handling one id. -/
structure Calls where
  header : Nat
  full : Nat
  deriving DecidableEq, Repr

/-- `handleOutdatedMessage(ctx, tx, g, nm, id)`:

  if nm.HaveMessage(id.PermID) { return nil }
  fullMsg, err := g.GetMessageFull(ctx, id.PermID)
  if err != nil {
    switch err := errors.Cause(err).(type) {
    case *googleapi.Error: if err.Code == 404 { return nil }
    }
    return errors.Wrapf(err, "failed getting message %v", id.PermID)
  }
  if err := nm.Insert(ctx, fullMsg); err != nil { return err }
  return nil

The result is `(returned error cause, filesystem, transaction state,
calls made)`.  The `tx` parameter is never used by the source: no
`UpdateHeader` (or any other persist call) happens here, so the
transaction state passes through unchanged.  `GetMessageHeader`
exists on the storage interface but is never called. -/
def handleOutdatedMessage (env : SyncEnv) (svcPath : List Nat) (fs : FS)
    (db : PersistState) (id : MessageID) :
    Option GoCause × FS × PersistState × Calls :=
  if HaveMessage svcPath fs id.PermID then (none, fs, db, ⟨0, 0⟩)
  else
    match env.getMessageFull id.PermID with
    | .error (.googleApi 404) => (none, fs, db, ⟨0, 1⟩)
    | .error e => (some e, fs, db, ⟨0, 1⟩)
    | .ok body =>
      match Insert svcPath fs body with
      | (some e, fs') => (some (.ioErr e), fs', db, ⟨0, 1⟩)
      | (none, fs') => (none, fs', db, ⟨0, 1⟩)

/-- The single phase-2 worker: pulls ids until the channel closes.
On a `handleOutdatedMessage` error the source evaluates
`errors.Wrap(err, "unable to handle outdated message")` but discards
the result and keeps looping, so the worker's own return value is
nil once the channel is exhausted. -/
def pullDownloadWorker (env : SyncEnv) (svcPath : List Nat) :
    FS → PersistState → List MessageID → FS × PersistState
  | fs, db, [] => (fs, db)
  | fs, db, id :: rest =>
    pullDownloadWorker env svcPath
      (handleOutdatedMessage env svcPath fs db id).2.1
      (handleOutdatedMessage env svcPath fs db id).2.2.1 rest

/-- `pullDownload`: begins a transaction, streams
`tx.ListOutdated` (the `history_id IS NULL` rows) to the worker,
then `grp.Wait()` and `tx.Commit()`.  The result is
`(returned error, filesystem, committed state, whether Commit ran)`.
Worker errors never reach `grp.Wait()` (discarded, see
`pullDownloadWorker`) and the listing of a consistent state does not
fail, so the wait observes nil and the transaction commits. -/
def pullDownload (env : SyncEnv) (svcPath : List Nat) (fs : FS)
    (db : PersistState) : Option String × FS × PersistState × Bool :=
  ((none : Option String),
   (pullDownloadWorker env svcPath fs db (ListUpdated db)).1,
   (pullDownloadWorker env svcPath fs db (ListUpdated db)).2,
   true)

/-!
### Transaction histories over the messages table
-/

/-- A mutating call on the messages table of a transaction. -/
inductive TxOp where
  | insertID (id : MessageID)
  | updateHdr (hdr : Header)
  deriving Repr

def applyTxOp (db : PersistState) : TxOp → PersistState
  | .insertID id => InsertMessageID db id
  | .updateHdr hdr => (UpdateHeader db hdr).2

def applyTxOps (db : PersistState) (ops : List TxOp) : PersistState :=
  ops.foldl applyTxOp db

/-- Whether the call clears the refresh flag of perm id `p`
(only an `UpdateHeader` for that perm id does). -/
def clearsFlag (p : String) : TxOp → Bool
  | .insertID _ => false
  | .updateHdr hdr => hdr.ID.PermID == p

/-- `history_id IS NULL` holds for the row of perm id `p`. -/
def flagged (db : PersistState) (p : String) : Prop :=
  ∃ r, getRow db.messages p = some r ∧ r.history_id = none

theorem WFMessages_applyTxOp {db : PersistState} (op : TxOp)
    (h : WFMessages db) : WFMessages (applyTxOp db op) := by
  cases op with
  | insertID id => exact WFMessages_InsertMessageID id h
  | updateHdr hdr => exact WFMessages_UpdateHeader hdr h

theorem flagged_applyTxOp {db : PersistState} {p : String} {op : TxOp}
    (hf : flagged db p) (hop : clearsFlag p op = false) :
    flagged (applyTxOp db op) p := by
  obtain ⟨r, hr, hnull⟩ := hf
  cases op with
  | insertID id =>
    by_cases hk : p = id.PermID
    · subst hk
      exact ⟨insertedRow db id, getRow_InsertMessageID_self db id,
        insertedRow_history db id⟩
    · exact ⟨r, by rw [applyTxOp, getRow_InsertMessageID_ne db id hk]; exact hr,
        hnull⟩
  | updateHdr hdr =>
    have hk : p ≠ hdr.ID.PermID := by
      intro hc
      rw [clearsFlag] at hop
      rw [hc] at hop
      simp at hop
    refine ⟨r, ?_, hnull⟩
    rw [applyTxOp, getRow_UpdateHeader_ne db hdr (fun hc => hk hc)]
    exact hr

theorem flagged_applyTxOps {db : PersistState} {p : String}
    {ops : List TxOp} (hf : flagged db p)
    (hops : ∀ op ∈ ops, clearsFlag p op = false) :
    flagged (applyTxOps db ops) p := by
  induction ops generalizing db with
  | nil => exact hf
  | cons op t ih =>
    rw [applyTxOps, List.foldl_cons]
    exact ih (flagged_applyTxOp hf (hops op (List.mem_cons_self op t)))
      (fun x hx => hops x (List.mem_cons_of_mem _ hx))

theorem WFMessages_applyTxOps {db : PersistState} {ops : List TxOp}
    (h : WFMessages db) : WFMessages (applyTxOps db ops) := by
  induction ops generalizing db with
  | nil => exact h
  | cons op t ih =>
    rw [applyTxOps, List.foldl_cons]
    exact ih (WFMessages_applyTxOp op h)

/-- A flagged row is listed exactly once. -/
theorem permCount_of_flagged {db : PersistState} {p : String}
    (hWF : WFMessages db) (hf : flagged db p) :
    permCount (ListUpdated db) p = 1 := by
  obtain ⟨r, hr, hnull⟩ := hf
  rw [ListUpdated, permCount_updatedRows db.messages p hWF,
    rowCount_eq_some hr, if_pos hnull]

/-- After `UpdateHeader` for a present perm id, the row is no longer
listed. -/
theorem permCount_after_update {db : PersistState} {p : String}
    {hdr : Header} (hWF : WFMessages db) (hp : hdr.ID.PermID = p)
    (hf : flagged db p) :
    permCount (ListUpdated (UpdateHeader db hdr).2) p = 0 := by
  obtain ⟨r, hr, _⟩ := hf
  rw [← hp] at hr
  have hmsg := UpdateHeader_messages_present hr
  have hWF' := WFMessages_UpdateHeader hdr hWF
  rw [ListUpdated, permCount_updatedRows _ p hWF']
  have hget : getRow (UpdateHeader db hdr).2.messages p =
      some ⟨r.thread_id, some hdr.HistoryID, some hdr.SizeEstimate⟩ := by
    rw [hmsg, ← hp]
    exact getRow_setRow_self _ _ _
  rw [rowCount_eq_some hget]
  simp

/-!
### The claims
-/

/-- C1: `WriteHistoryID(h)` fails exactly when
`h ≤ LatestHistoryID()` (the maximum committed cursor, 0 if the table
is empty), leaving the history table unchanged in that case; when it
succeeds the written cursor becomes the latest, so the cursor values
written by any sequence of successful `WriteHistoryID` calls are
strictly increasing. -/
theorem C1_cursor_monotonicity (db : PersistState) (h : Nat)
    (vs : List Nat) (hWF : WFHistory db) (hh : h < 2 ^ 64)
    (hvs : ∀ v ∈ vs, v < 2 ^ 64) :
    ((WriteHistoryID db h).1.isSome ↔ h ≤ LatestHistoryID db) ∧
    ((WriteHistoryID db h).1.isSome → (WriteHistoryID db h).2 = db) ∧
    ((WriteHistoryID db h).1 = none →
      LatestHistoryID (WriteHistoryID db h).2 = h) ∧
    List.Chain' (· < ·) (runWrites db vs).2 := by
  refine ⟨?_, ?_, ?_, (runWrites_chain vs db hWF hvs).1⟩
  · by_cases hle : h ≤ LatestHistoryID db
    · rw [WriteHistoryID_fail hle]
      simpa using hle
    · rw [WriteHistoryID_success (by omega)]
      simpa using hle
  · intro hsome
    by_cases hle : h ≤ LatestHistoryID db
    · rw [WriteHistoryID_fail hle]
    · rw [WriteHistoryID_success (by omega)] at hsome
      simp at hsome
  · intro hnone
    by_cases hle : h ≤ LatestHistoryID db
    · rw [WriteHistoryID_fail hle] at hnone
      simp at hnone
    · have hgt : LatestHistoryID db < h := by omega
      rw [WriteHistoryID_success hgt]
      unfold LatestHistoryID
      show latestOf (db.history ++ [orderedToSigned h]) = h
      exact latestOf_append hWF hh hgt

/-- A one-write history table used to exercise C1. -/
def c1db : PersistState := (WriteHistoryID emptyPersist 5).2

theorem C1_cursor_monotonicity_witness :
    WFHistory c1db ∧
    (runWrites c1db [7, 2, 9]).2 = [7, 9] ∧
    (((WriteHistoryID c1db 3).1.isSome ↔ 3 ≤ LatestHistoryID c1db) ∧
     ((WriteHistoryID c1db 3).1.isSome → (WriteHistoryID c1db 3).2 = c1db) ∧
     ((WriteHistoryID c1db 3).1 = none →
       LatestHistoryID (WriteHistoryID c1db 3).2 = 3) ∧
     List.Chain' (· < ·) (runWrites c1db [7, 2, 9]).2) :=
  ⟨by decide, by decide,
   C1_cursor_monotonicity c1db 3 [7, 2, 9] (by decide) (by decide)
     (by decide)⟩

/-- C2: the cursor encoding round-trips losslessly over all of
`[0, 2^64)`, is exactly the bias `u - 2^63` reinterpreted as a signed
64-bit value, and preserves unsigned order as signed order. -/
theorem C2_bias_encoding (u u1 u2 : Nat) (hu : u < 2 ^ 64)
    (h1 : u1 < 2 ^ 64) (h2 : u2 < 2 ^ 64) :
    orderedToUnsigned (orderedToSigned u) = u ∧
    orderedToSigned u = (u : Int) - 2 ^ 63 ∧
    (u1 < u2 ↔ orderedToSigned u1 < orderedToSigned u2) :=
  ⟨orderedToUnsigned_orderedToSigned hu, orderedToSigned_eq_bias hu,
   orderedToSigned_lt_iff h1 h2⟩

theorem C2_bias_encoding_witness :
    orderedToSigned 0 = -(2 ^ 63) ∧
    orderedToSigned (2 ^ 64 - 1) = 2 ^ 63 - 1 ∧
    orderedToSigned (2 ^ 63) = 0 ∧
    (orderedToUnsigned (orderedToSigned 5) = 5 ∧
     orderedToSigned 5 = (5 : Int) - 2 ^ 63 ∧
     (3 < 2 ^ 63 ↔ orderedToSigned 3 < orderedToSigned (2 ^ 63))) :=
  ⟨by decide, by decide, by decide,
   C2_bias_encoding 5 3 (2 ^ 63) (by decide) (by decide) (by decide)⟩

/-- A table exercising C3: insert `m1`, re-insert `m1` with a new
thread id, insert `m2`. -/
def c3db : PersistState :=
  applyTxOps (InsertMessageID emptyPersist ⟨"m1", "t1"⟩)
    [.insertID ⟨"m1", "t9"⟩, .insertID ⟨"m2", "t2"⟩]

/-- C7 counterexample: the `gmail_messages` schema keys rows by
`message_id` alone and has no account column, so the same perm id
cannot exist as two independent rows for two accounts: a second
`InsertMessageID` of perm id `p` (performed on behalf of any other
account) overwrites the row the first insert created, leaving a
single row whose `thread_id` is the second insert's. -/
theorem C7_account_keying_counterexample :
    gmailMessagesPrimaryKey ≠ ["account", "perm_id"] ∧
    "account" ∉ gmailMessagesColumns ∧
    (InsertMessageID (InsertMessageID emptyPersist ⟨"p", "t1"⟩)
        ⟨"p", "t2"⟩).messages = [("p", ⟨"t2", none, none⟩)] ∧
    getRow (InsertMessageID (InsertMessageID emptyPersist ⟨"p", "t1"⟩)
        ⟨"p", "t2"⟩).messages "p" ≠
      getRow (InsertMessageID emptyPersist ⟨"p", "t1"⟩).messages "p" := by
  decide

/-- C7 (amended): message rows are keyed by perm id alone (PRIMARY
KEY `message_id`; the schema has no account column), and
`InsertMessageID` and `UpdateHeader` touch no row other than the one
for their own perm id. -/
theorem C7_perm_keyed_rows (db : PersistState) (msg : MessageID)
    (hdr : Header) (k : String) (hk1 : k ≠ msg.PermID)
    (hk2 : k ≠ hdr.ID.PermID) :
    gmailMessagesPrimaryKey = ["message_id"] ∧
    getRow (InsertMessageID db msg).messages k = getRow db.messages k ∧
    getRow (UpdateHeader db hdr).2.messages k = getRow db.messages k ∧
    getRow (InsertMessageID db msg).messages msg.PermID =
      some (insertedRow db msg) :=
  ⟨rfl, getRow_InsertMessageID_ne db msg hk1,
   getRow_UpdateHeader_ne db hdr hk2, getRow_InsertMessageID_self db msg⟩

theorem C7_perm_keyed_rows_witness :
    gmailMessagesPrimaryKey = ["message_id"] ∧
    getRow (InsertMessageID emptyPersist ⟨"p", "t1"⟩).messages "other" =
      getRow emptyPersist.messages "other" ∧
    getRow (UpdateHeader emptyPersist ⟨⟨"q", "t"⟩, [], 1, 2⟩).2.messages
      "other" = getRow emptyPersist.messages "other" ∧
    getRow (InsertMessageID emptyPersist ⟨"p", "t1"⟩).messages "p" =
      some (insertedRow emptyPersist ⟨"p", "t1"⟩) :=
  C7_perm_keyed_rows emptyPersist ⟨"p", "t1"⟩ ⟨⟨"q", "t"⟩, [], 1, 2⟩
    "other" (by decide) (by decide)

/-- C8: blob `Insert` fails exactly on an empty perm id or empty raw
content, leaving the filesystem unchanged in those cases; otherwise
it writes, at the deterministic path for the perm id, exactly the
raw text with every CRLF folded to LF. -/
theorem C8_blob_insert (svcPath : List Nat) (fs : FS) (msg : Body) :
    ((Insert svcPath fs msg).1.isSome ↔
      msg.Header.ID.PermID = "" ∨ msg.Raw = "") ∧
    ((Insert svcPath fs msg).1.isSome → (Insert svcPath fs msg).2 = fs) ∧
    (msg.Header.ID.PermID ≠ "" → msg.Raw ≠ "" →
      Insert svcPath fs msg =
        (none, fsSet fs (makePath svcPath (goBytes msg.Header.ID.PermID))
          (replaceCRLF (goBytes msg.Raw)))) := by
  unfold Insert
  by_cases h1 : msg.Header.ID.PermID = ""
  · rw [if_pos h1]
    exact ⟨by simpa using Or.inl h1, fun _ => rfl, fun hc _ => absurd h1 hc⟩
  · rw [if_neg h1]
    by_cases h2 : msg.Raw = ""
    · rw [if_pos h2]
      exact ⟨by simpa using Or.inr h2, fun _ => rfl,
        fun _ hc => absurd h2 hc⟩
    · rw [if_neg h2]
      refine ⟨by simp [h1, h2], by simp, fun _ _ => ?_⟩
      rw [foldCRLF_eq]

theorem C8_blob_insert_witness :
    replaceCRLF (goBytes "a\r\nb\rc") = goBytes "a\nb\rc" ∧
    Insert [] emptyFS ⟨⟨⟨"", "t"⟩, [], 0, 0⟩, "x"⟩ =
      (some "message has no ID", emptyFS) ∧
    Insert [] emptyFS ⟨⟨⟨"p", "t"⟩, [], 0, 0⟩, ""⟩ =
      (some "message has no content", emptyFS) ∧
    Insert [] emptyFS ⟨⟨⟨"p", "t"⟩, [], 0, 0⟩, "a\r\nb\rc"⟩ =
      (none, fsSet emptyFS (makePath [] (goBytes "p"))
        (replaceCRLF (goBytes "a\r\nb\rc"))) :=
  ⟨by decide, by decide, by decide,
   (C8_blob_insert [] emptyFS ⟨⟨⟨"p", "t"⟩, [], 0, 0⟩, "a\r\nb\rc"⟩).2.2
     (by decide) (by decide)⟩

/-- C9: the blob basename for `(scope, perm_id)` is
`"gotmuch-1-" ++ escape(scope) ++ "-" ++ escape(permID)` where
`escape` turns every byte outside `[A-Za-z0-9]` into `=HH` (uppercase
hex) and copies the rest — matching both test vectors — and the two
shard directory names are `alphabet[h & 0xF]` and
`alphabet[(h >> 4) & 0xF]` for `h` the FNV-1a-32 hash of the perm id
bytes, over the alphabet `"abcdefghijklmnop"`. -/
theorem C9_path_encoding :
    basenameEncode (goBytes "scope") (goBytes "permId") =
      goBytes "gotmuch-1-scope-permId" ∧
    basenameEncode (goBytes "竹") (goBytes "\n\t\x07") =
      goBytes "gotmuch-1-=E7=AB=B9-=0A=09=07" ∧
    (∀ scope permID : List Nat,
      basenameEncode scope permID =
        goBytes "gotmuch-1-" ++
          (scope.flatMap fun c =>
            if shouldEscape c then escapeByte c else [c]) ++ [45] ++
          (permID.flatMap fun c =>
            if shouldEscape c then escapeByte c else [c])) ∧
    (∀ id : List Nat,
      pathParts id =
        [[(goBytes pathFarm16).getD (fnv1a32 id % 16) 0],
         [(goBytes pathFarm16).getD (fnv1a32 id / 16 % 16) 0]]) ∧
    pathParts (goBytes "permId") = [goBytes "g", goBytes "m"] := by
  refine ⟨by decide, by decide, fun scope permID => ?_, fun id => rfl,
    by decide⟩
  rw [basenameEncode, escape_eq_flatMap, escape_eq_flatMap]

/-!
Evaluation lemmas for `handleOutdatedMessage`.
-/

theorem handleOutdatedMessage_haveBlob {env : SyncEnv}
    {svcPath : List Nat} {fs : FS} {db : PersistState} {id : MessageID}
    (hhave : HaveMessage svcPath fs id.PermID = true) :
    handleOutdatedMessage env svcPath fs db id = (none, fs, db, ⟨0, 0⟩) := by
  unfold handleOutdatedMessage
  rw [hhave]
  rfl

theorem handleOutdatedMessage_notFound {env : SyncEnv}
    {svcPath : List Nat} {fs : FS} {db : PersistState} {id : MessageID}
    (hmiss : HaveMessage svcPath fs id.PermID = false)
    (hnf : env.getMessageFull id.PermID = .error .messageNotFound) :
    handleOutdatedMessage env svcPath fs db id =
      (some .messageNotFound, fs, db, ⟨0, 1⟩) := by
  unfold handleOutdatedMessage
  rw [hmiss, hnf]
  rfl

theorem handleOutdatedMessage_404 {env : SyncEnv} {svcPath : List Nat}
    {fs : FS} {db : PersistState} {id : MessageID}
    (hmiss : HaveMessage svcPath fs id.PermID = false)
    (hnf : env.getMessageFull id.PermID = .error (.googleApi 404)) :
    handleOutdatedMessage env svcPath fs db id = (none, fs, db, ⟨0, 1⟩) := by
  unfold handleOutdatedMessage
  rw [hmiss, hnf]
  rfl

/-- `handleOutdatedMessage` makes no call on the transaction: the
state passes through untouched on every path. -/
theorem handleOutdatedMessage_db (env : SyncEnv) (svcPath : List Nat)
    (fs : FS) (db : PersistState) (id : MessageID) :
    (handleOutdatedMessage env svcPath fs db id).2.2.1 = db := by
  unfold handleOutdatedMessage
  split
  · rfl
  · split
    · rfl
    · rfl
    · split
      · rfl
      · rfl

/-- A MailStore whose `GetMessageFull` reports every id as not found
(the canonical `gmail.ErrMessageNotFound`). -/
def c4Env : SyncEnv := ⟨fun _ => .error .messageNotFound⟩

/-- A messages table with one refresh-flagged row `p2`. -/
def c4db : PersistState := InsertMessageID emptyPersist ⟨"p2", "t2"⟩

/-- C4 counterexample: on a NotFound from the MailStore,
`handleOutdatedMessage` writes no sentinel header (phase 2 contains
no `Tx.UpdateHeader` call at all): it returns the error, leaves the
transaction state unchanged, the row keeps `history_id` NULL, and
`ListUpdated` still yields the id — contradicting the claim that the
refresh flag is cleared so the id does not reappear. -/
theorem C4_notfound_sentinel_counterexample :
    (handleOutdatedMessage c4Env [] emptyFS c4db ⟨"p2", "t2"⟩).1 =
      some .messageNotFound ∧
    (handleOutdatedMessage c4Env [] emptyFS c4db ⟨"p2", "t2"⟩).2.2.1 =
      c4db ∧
    getRow (handleOutdatedMessage c4Env [] emptyFS c4db
      ⟨"p2", "t2"⟩).2.2.1.messages "p2" = some ⟨"t2", none, none⟩ ∧
    permCount (ListUpdated (handleOutdatedMessage c4Env [] emptyFS c4db
      ⟨"p2", "t2"⟩).2.2.1) "p2" = 1 := by
  decide

/-- C4 (amended): when the blob is absent and the MailStore reports
NotFound, `handleOutdatedMessage` writes nothing: for the canonical
`ErrMessageNotFound` it returns the error after its single
`GetMessageFull` call (the 404 skip only matches an uncanonicalized
`googleapi` error, for which it returns nil); on every path the
transaction state is untouched, so the row keeps `history_id` NULL
and the id is yielded again by `ListUpdated` on later runs. -/
theorem C4_notfound_no_write (env : SyncEnv) (svcPath : List Nat)
    (fs : FS) (db : PersistState) (id : MessageID)
    (hmiss : HaveMessage svcPath fs id.PermID = false) :
    (env.getMessageFull id.PermID = .error .messageNotFound →
      handleOutdatedMessage env svcPath fs db id =
        (some .messageNotFound, fs, db, ⟨0, 1⟩)) ∧
    (env.getMessageFull id.PermID = .error (.googleApi 404) →
      handleOutdatedMessage env svcPath fs db id =
        (none, fs, db, ⟨0, 1⟩)) ∧
    ListUpdated (handleOutdatedMessage env svcPath fs db id).2.2.1 =
      ListUpdated db :=
  ⟨fun hnf => handleOutdatedMessage_notFound hmiss hnf,
   fun hnf => handleOutdatedMessage_404 hmiss hnf,
   by rw [handleOutdatedMessage_db]⟩

theorem C4_notfound_no_write_witness :
    handleOutdatedMessage c4Env [] emptyFS c4db ⟨"p2", "t2"⟩ =
      (some .messageNotFound, emptyFS, c4db, ⟨0, 1⟩) ∧
    ListUpdated (handleOutdatedMessage c4Env [] emptyFS c4db
      ⟨"p2", "t2"⟩).2.2.1 = ListUpdated c4db :=
  ⟨(C4_notfound_no_write c4Env [] emptyFS c4db ⟨"p2", "t2"⟩
      (by decide)).1 rfl,
   (C4_notfound_no_write c4Env [] emptyFS c4db ⟨"p2", "t2"⟩
      (by decide)).2.2⟩

/-- A filesystem already holding the blob for `p3`. -/
def c5fs : FS := fsSet emptyFS (makePath [] (goBytes "p3")) (goBytes "x")

/-- A messages table with one refresh-flagged row `p3`. -/
def c5db : PersistState := InsertMessageID emptyPersist ⟨"p3", "t3"⟩

def c5Env : SyncEnv := ⟨fun _ => .error (.ioErr "unused")⟩

/-- C5 counterexample: with the blob present on disk,
`handleOutdatedMessage` issues zero `GetMessageHeader` calls — not
exactly one — and performs no row update: the row is still flagged
afterwards. -/
theorem C5_header_fetch_counterexample :
    handleOutdatedMessage c5Env [] c5fs c5db ⟨"p3", "t3"⟩ =
      (none, c5fs, c5db, ⟨0, 0⟩) ∧
    ¬ (handleOutdatedMessage c5Env [] c5fs c5db
        ⟨"p3", "t3"⟩).2.2.2.header = 1 ∧
    permCount (ListUpdated (handleOutdatedMessage c5Env [] c5fs c5db
      ⟨"p3", "t3"⟩).2.2.1) "p3" = 1 := by
  decide

/-- C5 (amended): if the blob file exists at the computed path,
`handleOutdatedMessage` returns immediately: zero `GetMessageHeader`
calls, zero `GetMessageFull` calls, no filesystem write and no row
update (`GetMessageHeader` is in fact never called anywhere in the
sync engine). -/
theorem C5_blob_short_circuit (env : SyncEnv) (svcPath : List Nat)
    (fs : FS) (db : PersistState) (id : MessageID)
    (hhave : HaveMessage svcPath fs id.PermID = true) :
    handleOutdatedMessage env svcPath fs db id = (none, fs, db, ⟨0, 0⟩) :=
  handleOutdatedMessage_haveBlob hhave

theorem C5_blob_short_circuit_witness :
    HaveMessage [] c5fs "p3" = true ∧
    handleOutdatedMessage c5Env [] c5fs c5db ⟨"p3", "t3"⟩ =
      (none, c5fs, c5db, ⟨0, 0⟩) :=
  ⟨by decide,
   C5_blob_short_circuit c5Env [] c5fs c5db ⟨"p3", "t3"⟩ (by decide)⟩

/-- A MailStore delivering, for every id, a body with empty raw
content — which the blob store rejects with an error. -/
def c6Env : SyncEnv := ⟨fun _ => .ok ⟨⟨⟨"p1", "t1"⟩, [], 0, 0⟩, ""⟩⟩

/-- A messages table with one refresh-flagged row `p1`. -/
def c6db : PersistState := InsertMessageID emptyPersist ⟨"p1", "t1"⟩

/-- C6 (code bug): the phase-2 worker evaluates
`errors.Wrap(err, "unable to handle outdated message")` but discards
the result and keeps looping, so a non-NotFound, non-RateLimited
error from `handleOutdatedMessage` — here the blob store rejecting a
body with empty content — is silently swallowed: `pullDownload`
returns nil and commits its transaction instead of returning the
wrapped error without committing. -/
theorem C6_swallowed_worker_error :
    (handleOutdatedMessage c6Env [] emptyFS c6db ⟨"p1", "t1"⟩).1 =
      some (.ioErr "message has no content") ∧
    ListUpdated c6db = [⟨"p1", "t1"⟩] ∧
    pullDownload c6Env [] emptyFS c6db = (none, emptyFS, c6db, true) := by
  decide

end Gotmuch
